import Mathlib

/-!
metadatabp: base Kubernetes metadata configuration

A shallow embedding of `metadatabp/metadata.go` and the properties of its
construction and lookup functions.

Modelling conventions

* Go strings are Lean `String`s (sequences of Unicode code points).
* The process environment is a function from variable name to `Option String`;
  `os.LookupEnv` reads it.
* A Go map is a function from key to `Option String`; a nil map is `none`.
* A `*Config` is an `Option (Config κ)`, the nil pointer being `none`.  Functions
  receiving a `*Config` return the pointee after the call next to their result.
* Iterating `range baseMetadataVariables` visits every entry once in an order
  that Go leaves unspecified: the order is an explicit argument, a permutation of
  the table.
* Options and the client constructor may act on the outside world; that world is
  threaded through as a state of an arbitrary type `σ`.
-/

set_option autoImplicit false

namespace Metadatabp

/-! Data model -/

/-- The Go type `BaseMetadata`, a defined string type. -/
abbrev BaseMetadata := String

def BaseplateK8sNodeName : BaseMetadata := "baseplateK8sNodeName"
def BaseplateK8sNodeIP : BaseMetadata := "baseplateK8sNodeIP"
def BaseplateK8sPodName : BaseMetadata := "baseplateK8sPodName"
def BaseplateK8sPodIP : BaseMetadata := "baseplateK8sPodIP"
def BaseplateK8sNamespace : BaseMetadata := "baseplateK8sNamespace"

/-- The table `baseMetadataVariables`, listed in source order. -/
def baseMetadataVariables : List (BaseMetadata × String) :=
  [ (BaseplateK8sNodeName, "BASEPLATE_K8S_METADATA_NODE_NAME"),
    (BaseplateK8sNodeIP, "BASEPLATE_K8S_METADATA_NODE_IP"),
    (BaseplateK8sPodName, "BASEPLATE_K8S_METADATA_POD_NAME"),
    (BaseplateK8sPodIP, "BASEPLATE_K8S_METADATA_POD_IP"),
    (BaseplateK8sNamespace, "BASEPLATE_K8S_METADATA_NAMESPACE") ]

/-- A Go `error` value, carrying the text that `Error()` yields. -/
structure GoError where
  msg : String
  deriving DecidableEq, Repr

/-- A run-time panic of the Go program. -/
inductive Panic where
  | nilPointerDereference
  deriving DecidableEq, Repr

/-- The process environment. -/
abbrev Env := String → Option String

/-- The environment with no variable set. -/
def emptyEnv : Env := fun _ => none

/-- The environment `env` after `os.Setenv name value`. -/
def setenv (env : Env) (name value : String) : Env :=
  fun n => if n = name then some value else env n

/-- The environment `env` after `os.Unsetenv name`. -/
def unsetenv (env : Env) (name : String) : Env :=
  fun n => if n = name then none else env n

/-- The Go call `os.LookupEnv`: the value and whether the variable is set. -/
def LookupEnv (env : Env) (name : String) : String × Bool :=
  match env name with
  | some value => (value, true)
  | none => ("", false)

/-- The Go predicate `unicode.IsSpace`: the Latin-1 space characters and the
Unicode `White_Space` property beyond Latin-1. -/
def isSpace (c : Char) : Bool :=
  let r := c.toNat
  if r ≤ 0xFF then
    r == 0x09 || r == 0x0A || r == 0x0B || r == 0x0C || r == 0x0D || r == 0x20
      || r == 0x85 || r == 0xA0
  else
    r == 0x1680 || (0x2000 ≤ r && r ≤ 0x200A) || r == 0x2028 || r == 0x2029
      || r == 0x202F || r == 0x205F || r == 0x3000

/-- The Go function `strings.TrimSpace`: the string without its leading and
trailing white space. -/
def TrimSpace (s : String) : String :=
  ⟨((s.data.dropWhile isSpace).reverse.dropWhile isSpace).reverse⟩

/-- The contents of a non-nil `map[BaseMetadata]string`. -/
abbrev MetadataMap := BaseMetadata → Option String

/-- The result of `make(map[BaseMetadata]string)`. -/
def emptyMap : MetadataMap := fun _ => none

/-- The map after the assignment `m[k] = v`. -/
def mapSet (m : MetadataMap) (k : BaseMetadata) (v : String) : MetadataMap :=
  fun key => if key = k then some v else m key

/-- The Go index expression `m[key]` on a possibly nil map: the zero value `""`
when the map is nil or the key absent. -/
def mapIndex (m : Option MetadataMap) (key : BaseMetadata) : String :=
  match m with
  | none => ""
  | some f => (f key).getD ""

/-- The struct `Config`; `κ` is the type of the implementations of the interface
`K8SFetcher`, a nil interface value being `none`. -/
structure Config (κ : Type) where
  BaseK8sMetadata : Option MetadataMap
  k8sClient : Option κ

/-- The zero value `Config{}`. -/
def zeroConfig (κ : Type) : Config κ := ⟨none, none⟩

/-- What a call of an option `func(*Config) error` leaves behind: the returned
error, the pointee and the outside world. -/
structure OptionResult (κ σ : Type) where
  err : Option GoError
  config : Config κ
  world : σ

/-- An option `func(*Config) error`. -/
abbrev ConfigOption (κ σ : Type) := Config κ → σ → OptionResult κ σ

/-- The pair `(*Config, error)` that `New` returns, with the outside world. -/
structure NewResult (κ σ : Type) where
  config : Option (Config κ)
  err : Option GoError
  world : σ

/-! Operations -/

/-- The error built by
`fmt.Errorf("metadatapb:%s base k8s metadata value not present", v)`. -/
def notPresentError (v : String) : GoError :=
  ⟨"metadatapb:" ++ v ++ " base k8s metadata value not present"⟩

/-- The loop of `fetchBaseMetadata` over the remaining table entries, the map
built so far being `m`. -/
def fetchLoop (env : Env) :
    List (BaseMetadata × String) → MetadataMap → Option MetadataMap × Option GoError
  | [], m => (some m, none)
  | (k, v) :: rest, m =>
    let (value, present) := LookupEnv env v
    if !present || TrimSpace value == "" then
      (none, some (notPresentError v))
    else
      fetchLoop env rest (mapSet m k value)

/-- The function `fetchBaseMetadata`, iterating the table in the order `order`. -/
def fetchBaseMetadata (order : List (BaseMetadata × String)) (env : Env) :
    Option MetadataMap × Option GoError :=
  fetchLoop env order emptyMap

/-- The loop of `New` over the remaining options. -/
def applyOptions {κ σ : Type} :
    List (ConfigOption κ σ) → Config κ → σ → NewResult κ σ
  | [], config, w => ⟨some config, none, w⟩
  | option :: rest, config, w =>
    let r := option config w
    match r.err with
    | some err => ⟨none, some err, r.world⟩
    | none => applyOptions rest r.config r.world

/-- The function `New`. -/
def New {κ σ : Type} (order : List (BaseMetadata × String)) (env : Env)
    (options : List (ConfigOption κ σ)) (w : σ) : NewResult κ σ :=
  let config : Config κ := zeroConfig κ
  match fetchBaseMetadata order env with
  | (_, some err) => ⟨none, some err, w⟩
  | (baseK8sMetadata, none) =>
    applyOptions options { config with BaseK8sMetadata := baseK8sMetadata } w

/-- The function `WithK8SClient`; the constructor `NewK8SClient`, which is not
part of this file, is the argument `newK8SClient`: it returns the client, the
error and the outside world it leaves. -/
def WithK8SClient {κ σ : Type} (newK8SClient : σ → Option κ × Option GoError × σ) :
    ConfigOption κ σ :=
  fun c w =>
    let (client, err, w1) := newK8SClient w
    ⟨err, { c with k8sClient := client }, w1⟩

/-- The method `(*Config).GetBaseMetadata`: a nil receiver panics at the field
access; otherwise the map is indexed and the pointee is left as it was. -/
def GetBaseMetadata {κ : Type} (c : Option (Config κ)) (key : BaseMetadata) :
    Except Panic (String × Config κ) :=
  match c with
  | none => .error .nilPointerDereference
  | some cfg => .ok (mapIndex cfg.BaseK8sMetadata key, cfg)

/-! Specification-side notions -/

/-- The variable `v` is set to a value that is non-empty after trimming. -/
def validVar (env : Env) (v : String) : Prop :=
  ∃ s, env v = some s ∧ TrimSpace s ≠ ""

/-- The variable `v` is absent or blank. -/
def invalidVar (env : Env) (v : String) : Prop :=
  env v = none ∨ ∃ s, env v = some s ∧ TrimSpace s = ""

/-- The state reached by calling the first `n` options one after the other,
each on the configuration and world the previous one left. -/
def stateAfter {κ σ : Type} (options : List (ConfigOption κ σ)) (n : Nat)
    (c : Config κ) (w : σ) : Config κ × σ :=
  (options.take n).foldl (fun s o => ((o s.1 s.2).config, (o s.1 s.2).world)) (c, w)

/-- The environment of the running example. -/
def exampleEnv : Env :=
  setenv (setenv (setenv (setenv (setenv emptyEnv
    "BASEPLATE_K8S_METADATA_NODE_NAME" "node-1")
    "BASEPLATE_K8S_METADATA_NODE_IP" "10.0.0.5")
    "BASEPLATE_K8S_METADATA_POD_NAME" "pod-abc")
    "BASEPLATE_K8S_METADATA_POD_IP" "10.0.0.6")
    "BASEPLATE_K8S_METADATA_NAMESPACE" "default"

/-- An option that records the number `n` in the world, a list of numbers, and
returns nil. -/
def logOption (n : Nat) : ConfigOption Unit (List Nat) :=
  fun c w => ⟨none, c, w ++ [n]⟩

/-- An option that records the number `n` in the world and fails. -/
def failingOption (n : Nat) (msg : String) : ConfigOption Unit (List Nat) :=
  fun c w => ⟨some ⟨msg⟩, c, w ++ [n]⟩

/-- A client constructor that fails: it returns no client and an error, and
leaves the world as it is. -/
def failingNewK8SClient (msg : String) : Unit → Option Unit × Option GoError × Unit :=
  fun w => (none, some ⟨msg⟩, w)

instance validVar_decidable (env : Env) (v : String) : Decidable (validVar env v) :=
  match h : env v with
  | none => isFalse (fun ⟨s, hs, _⟩ => by rw [h] at hs; cases hs)
  | some s =>
    if hs : TrimSpace s = "" then
      isFalse (fun ⟨t, ht, hne⟩ => by rw [h] at ht; cases ht; exact hne hs)
    else
      isTrue ⟨s, h, hs⟩

instance invalidVar_decidable (env : Env) (v : String) : Decidable (invalidVar env v) :=
  match h : env v with
  | none => isTrue (Or.inl h)
  | some s =>
    if hs : TrimSpace s = "" then
      isTrue (Or.inr ⟨s, h, hs⟩)
    else
      isFalse (fun hinv => by
        rcases hinv with h1 | ⟨t, ht, hte⟩
        · rw [h] at h1; cases h1
        · rw [h] at ht; cases ht; exact hs hte)

/-! Lemmas on the loader -/

theorem fetchLoop_cons_unset (env : Env) (k : BaseMetadata) (v : String)
    (rest : List (BaseMetadata × String)) (m : MetadataMap) (h : env v = none) :
    fetchLoop env ((k, v) :: rest) m = (none, some (notPresentError v)) := by
  simp [fetchLoop, LookupEnv, h]

theorem fetchLoop_cons_blank (env : Env) (k : BaseMetadata) (v s : String)
    (rest : List (BaseMetadata × String)) (m : MetadataMap) (h : env v = some s)
    (hs : TrimSpace s = "") :
    fetchLoop env ((k, v) :: rest) m = (none, some (notPresentError v)) := by
  simp [fetchLoop, LookupEnv, h, hs]

theorem fetchLoop_cons_valid (env : Env) (k : BaseMetadata) (v s : String)
    (rest : List (BaseMetadata × String)) (m : MetadataMap) (h : env v = some s)
    (hs : TrimSpace s ≠ "") :
    fetchLoop env ((k, v) :: rest) m = fetchLoop env rest (mapSet m k s) := by
  simp [fetchLoop, LookupEnv, h, hs]

theorem valid_or_invalid (env : Env) (v : String) : validVar env v ∨ invalidVar env v := by
  unfold validVar invalidVar
  cases h : env v with
  | none => exact Or.inr (Or.inl rfl)
  | some s =>
    by_cases hs : TrimSpace s = ""
    · exact Or.inr (Or.inr ⟨s, rfl, hs⟩)
    · exact Or.inl ⟨s, rfl, hs⟩

theorem not_valid_of_invalid (env : Env) (v : String) (h : invalidVar env v) :
    ¬ validVar env v := by
  rintro ⟨s, hs, hne⟩
  rcases h with h | ⟨t, ht, hte⟩
  · rw [h] at hs; cases hs
  · rw [ht] at hs; cases hs; exact hne hte

theorem fetchLoop_cons_invalid (env : Env) (k : BaseMetadata) (v : String)
    (rest : List (BaseMetadata × String)) (m : MetadataMap) (h : invalidVar env v) :
    fetchLoop env ((k, v) :: rest) m = (none, some (notPresentError v)) := by
  rcases h with h | ⟨s, h, hs⟩
  · exact fetchLoop_cons_unset env k v rest m h
  · exact fetchLoop_cons_blank env k v s rest m h hs

/-- A failing loop returns a nil map and names an entry that is absent or blank. -/
theorem fetchLoop_error (env : Env) (l : List (BaseMetadata × String)) (m : MetadataMap)
    (e : GoError) (h : (fetchLoop env l m).2 = some e) :
    ∃ kv ∈ l, invalidVar env kv.2 ∧ e = notPresentError kv.2 ∧
      fetchLoop env l m = (none, some e) := by
  induction l generalizing m with
  | nil => simp [fetchLoop] at h
  | cons kv rest ih =>
    obtain ⟨k, v⟩ := kv
    rcases valid_or_invalid env v with ⟨s, hs, hne⟩ | hinv
    · rw [fetchLoop_cons_valid env k v s rest m hs hne] at h ⊢
      obtain ⟨kv, hmem, h1, h2, h3⟩ := ih _ h
      exact ⟨kv, List.mem_cons_of_mem _ hmem, h1, h2, h3⟩
    · rw [fetchLoop_cons_invalid env k v rest m hinv] at h ⊢
      simp only [Option.some.injEq] at h
      exact ⟨(k, v), List.mem_cons_self _ _, hinv, h.symm, by rw [h]⟩

/-- A loop over valid entries succeeds; the map it returns keeps the keys it does
not visit and holds the environment value at every key it visits. -/
theorem fetchLoop_valid (env : Env) (l : List (BaseMetadata × String)) (m : MetadataMap)
    (h : ∀ kv ∈ l, validVar env kv.2) :
    ∃ m1, fetchLoop env l m = (some m1, none) ∧
      (∀ key, (∀ kv ∈ l, kv.1 ≠ key) → m1 key = m key) ∧
      ((l.map Prod.fst).Nodup → ∀ kv ∈ l, m1 kv.1 = env kv.2) := by
  induction l generalizing m with
  | nil => exact ⟨m, rfl, fun _ _ => rfl, fun _ kv hkv => by cases hkv⟩
  | cons kv rest ih =>
    obtain ⟨k, v⟩ := kv
    obtain ⟨s, hs, hne⟩ := h (k, v) (List.mem_cons_self _ _)
    obtain ⟨m1, h1, h2, h3⟩ :=
      ih (mapSet m k s) (fun kv hkv => h kv (List.mem_cons_of_mem _ hkv))
    refine ⟨m1, ?_, ?_, ?_⟩
    · rw [fetchLoop_cons_valid env k v s rest m hs hne, h1]
    · intro key hkey
      rw [h2 key (fun kv hkv => hkey kv (List.mem_cons_of_mem _ hkv))]
      have : key ≠ k := fun hk => hkey (k, v) (List.mem_cons_self _ _) hk.symm
      simp [mapSet, this]
    · intro hnd kv hkv
      rw [List.map_cons, List.nodup_cons] at hnd
      rcases List.mem_cons.1 hkv with rfl | hmem
      · rw [h2 k, hs]
        · simp [mapSet]
        · intro kv2 hkv2 hk
          have hmem := List.mem_map_of_mem Prod.fst hkv2
          rw [hk] at hmem
          exact hnd.1 hmem
      · exact h3 hnd.2 kv hmem

/-- A succeeding loop has met valid entries only. -/
theorem fetchLoop_ok_valid (env : Env) (l : List (BaseMetadata × String)) (m : MetadataMap)
    (h : (fetchLoop env l m).2 = none) : ∀ kv ∈ l, validVar env kv.2 := by
  induction l generalizing m with
  | nil => intro kv hkv; cases hkv
  | cons kv rest ih =>
    obtain ⟨k, v⟩ := kv
    rcases valid_or_invalid env v with ⟨s, hs, hne⟩ | hinv
    · rw [fetchLoop_cons_valid env k v s rest m hs hne] at h
      intro kv hkv
      rcases List.mem_cons.1 hkv with rfl | hmem
      · exact ⟨s, hs, hne⟩
      · exact ih _ h kv hmem
    · rw [fetchLoop_cons_invalid env k v rest m hinv] at h
      cases h

/-- The keys a succeeding loop adds are the keys of its entries. -/
theorem fetchLoop_keys (env : Env) (l : List (BaseMetadata × String)) (m m1 : MetadataMap)
    (h : fetchLoop env l m = (some m1, none)) (key : BaseMetadata) :
    (m1 key).isSome ↔ (m key).isSome ∨ key ∈ l.map Prod.fst := by
  induction l generalizing m with
  | nil =>
    simp only [fetchLoop, Prod.mk.injEq, Option.some.injEq, and_true] at h
    simp [h]
  | cons kv rest ih =>
    obtain ⟨k, v⟩ := kv
    have hv : validVar env v :=
      fetchLoop_ok_valid env _ m (by rw [h]) (k, v) (List.mem_cons_self _ _)
    obtain ⟨s, hs, hne⟩ := hv
    rw [fetchLoop_cons_valid env k v s rest m hs hne] at h
    rw [ih _ h]
    by_cases hk : key = k
    · simp [mapSet, hk]
    · simp [mapSet, hk]

/-- The values a succeeding loop adds are non-empty after trimming. -/
theorem fetchLoop_values (env : Env) (l : List (BaseMetadata × String)) (m m1 : MetadataMap)
    (h : fetchLoop env l m = (some m1, none))
    (hm : ∀ key s, m key = some s → TrimSpace s ≠ "") :
    ∀ key s, m1 key = some s → TrimSpace s ≠ "" := by
  induction l generalizing m with
  | nil =>
    simp only [fetchLoop, Prod.mk.injEq, Option.some.injEq, and_true] at h
    rw [← h]; exact hm
  | cons kv rest ih =>
    obtain ⟨k, v⟩ := kv
    have hv : validVar env v :=
      fetchLoop_ok_valid env _ m (by rw [h]) (k, v) (List.mem_cons_self _ _)
    obtain ⟨s, hs, hne⟩ := hv
    rw [fetchLoop_cons_valid env k v s rest m hs hne] at h
    refine ih _ h ?_
    intro key t ht
    by_cases hk : key = k
    · simp [mapSet, hk] at ht; rw [← ht]; exact hne
    · simp [mapSet, hk] at ht; exact hm key t ht

theorem table_keys_nodup : (baseMetadataVariables.map Prod.fst).Nodup := by decide

theorem table_vars_nodup : (baseMetadataVariables.map Prod.snd).Nodup := by decide

theorem order_keys_nodup (order : List (BaseMetadata × String))
    (h : order.Perm baseMetadataVariables) : (order.map Prod.fst).Nodup :=
  ((h.map Prod.fst).nodup_iff).2 table_keys_nodup

theorem fetchLoop_invalid_fails (env : Env) (l : List (BaseMetadata × String))
    (m : MetadataMap) (h : ∃ kv ∈ l, invalidVar env kv.2) :
    ∃ kv ∈ l, invalidVar env kv.2 ∧
      fetchLoop env l m = (none, some (notPresentError kv.2)) := by
  cases he : (fetchLoop env l m).2 with
  | none =>
    obtain ⟨kv, hkv, hinv⟩ := h
    exact absurd (fetchLoop_ok_valid env l m he kv hkv) (not_valid_of_invalid env _ hinv)
  | some e =>
    obtain ⟨kv, hkv, hinv, rfl, heq⟩ := fetchLoop_error env l m e he
    exact ⟨kv, hkv, hinv, heq⟩

/-- A blank value and an unset variable lead the loop to the same result. -/
theorem fetchLoop_blank_eq_unset (env : Env) (v w : String) (hw : TrimSpace w = "")
    (l : List (BaseMetadata × String)) (m : MetadataMap) :
    fetchLoop (setenv env v w) l m = fetchLoop (unsetenv env v) l m := by
  induction l generalizing m with
  | nil => rfl
  | cons kv rest ih =>
    obtain ⟨k, v1⟩ := kv
    by_cases hv : v1 = v
    · subst hv
      rw [fetchLoop_cons_blank (setenv env v1 w) k v1 w rest m (by simp [setenv]) hw,
        fetchLoop_cons_unset (unsetenv env v1) k v1 rest m (by simp [unsetenv])]
    · have h1 : setenv env v w v1 = env v1 := by simp [setenv, hv]
      have h2 : unsetenv env v v1 = env v1 := by simp [unsetenv, hv]
      cases hlk : env v1 with
      | none =>
        rw [fetchLoop_cons_unset _ k v1 rest m (h1.trans hlk),
          fetchLoop_cons_unset _ k v1 rest m (h2.trans hlk)]
      | some s =>
        by_cases hs : TrimSpace s = ""
        · rw [fetchLoop_cons_blank _ k v1 s rest m (h1.trans hlk) hs,
            fetchLoop_cons_blank _ k v1 s rest m (h2.trans hlk) hs]
        · rw [fetchLoop_cons_valid _ k v1 s rest m (h1.trans hlk) hs,
            fetchLoop_cons_valid _ k v1 s rest m (h2.trans hlk) hs]
          exact ih _

/-! Lemmas on construction -/

theorem New_of_fetch_error {κ σ : Type} (order : List (BaseMetadata × String)) (env : Env)
    (options : List (ConfigOption κ σ)) (w : σ) (m : Option MetadataMap) (e : GoError)
    (h : fetchBaseMetadata order env = (m, some e)) :
    New order env options w = ⟨none, some e, w⟩ := by
  simp only [New, h]

theorem New_of_fetch_ok {κ σ : Type} (order : List (BaseMetadata × String)) (env : Env)
    (options : List (ConfigOption κ σ)) (w : σ) (m : Option MetadataMap)
    (h : fetchBaseMetadata order env = (m, none)) :
    New order env options w = applyOptions options ⟨m, none⟩ w := by
  simp only [New, h, zeroConfig]

theorem stateAfter_zero {κ σ : Type} (options : List (ConfigOption κ σ)) (c : Config κ)
    (w : σ) : stateAfter options 0 c w = (c, w) := by
  simp [stateAfter]

theorem stateAfter_cons_succ {κ σ : Type} (o : ConfigOption κ σ)
    (rest : List (ConfigOption κ σ)) (n : Nat) (c : Config κ) (w : σ) :
    stateAfter (o :: rest) (n + 1) c w = stateAfter rest n (o c w).config (o c w).world := by
  simp [stateAfter]

theorem applyOptions_cons_ok {κ σ : Type} (o : ConfigOption κ σ)
    (rest : List (ConfigOption κ σ)) (c : Config κ) (w : σ) (h : (o c w).err = none) :
    applyOptions (o :: rest) c w = applyOptions rest (o c w).config (o c w).world := by
  simp only [applyOptions, h]

theorem applyOptions_cons_error {κ σ : Type} (o : ConfigOption κ σ)
    (rest : List (ConfigOption κ σ)) (c : Config κ) (w : σ) (e : GoError)
    (h : (o c w).err = some e) :
    applyOptions (o :: rest) c w = ⟨none, some e, (o c w).world⟩ := by
  simp only [applyOptions, h]

/-- Options that all return nil are passed through: the loop goes on from the
state they leave. -/
theorem applyOptions_append_ok {κ σ : Type} (pre rest : List (ConfigOption κ σ))
    (c : Config κ) (w : σ)
    (h : ∀ (j : Nat) (p : ConfigOption κ σ), pre[j]? = some p →
      (p (stateAfter pre j c w).1 (stateAfter pre j c w).2).err = none) :
    applyOptions (pre ++ rest) c w =
      applyOptions rest (stateAfter pre pre.length c w).1 (stateAfter pre pre.length c w).2 := by
  induction pre generalizing c w with
  | nil => simp [stateAfter]
  | cons p pre ih =>
    have h0 : (p c w).err = none := by
      have := h 0 p (by simp)
      rwa [stateAfter_zero] at this
    rw [List.cons_append, applyOptions_cons_ok p _ c w h0, List.length_cons,
      stateAfter_cons_succ]
    apply ih
    intro j q hq
    have := h (j + 1) q (by simpa using hq)
    rwa [stateAfter_cons_succ] at this

theorem applyOptions_error_config {κ σ : Type} (options : List (ConfigOption κ σ))
    (c : Config κ) (w : σ) (h : (applyOptions options c w).err ≠ none) :
    (applyOptions options c w).config = none := by
  induction options generalizing c w with
  | nil => simp [applyOptions] at h
  | cons o rest ih =>
    cases he : (o c w).err with
    | none =>
      rw [applyOptions_cons_ok o rest c w he] at h ⊢
      exact ih _ _ h
    | some e => rw [applyOptions_cons_error o rest c w e he]

/-- A succeeding loop over options that leave the mapping alone returns a
configuration holding the mapping it started with. -/
theorem applyOptions_keeps_mapping {κ σ : Type} (options : List (ConfigOption κ σ))
    (c : Config κ) (w : σ)
    (hkeep : ∀ o ∈ options, ∀ (c1 : Config κ) (w1 : σ),
      (o c1 w1).config.BaseK8sMetadata = c1.BaseK8sMetadata)
    (h : (applyOptions options c w).err = none) :
    ∃ cfg, (applyOptions options c w).config = some cfg ∧
      cfg.BaseK8sMetadata = c.BaseK8sMetadata := by
  induction options generalizing c w with
  | nil => exact ⟨c, rfl, rfl⟩
  | cons o rest ih =>
    cases he : (o c w).err with
    | none =>
      rw [applyOptions_cons_ok o rest c w he] at h ⊢
      obtain ⟨cfg, h1, h2⟩ :=
        ih _ _ (fun o1 ho1 => hkeep o1 (List.mem_cons_of_mem _ ho1)) h
      exact ⟨cfg, h1, h2.trans (hkeep o (List.mem_cons_self _ _) c w)⟩
    | some e =>
      rw [applyOptions_cons_error o rest c w e he] at h
      cases h

theorem New_error_config {κ σ : Type} (order : List (BaseMetadata × String)) (env : Env)
    (options : List (ConfigOption κ σ)) (w : σ) (h : (New order env options w).err ≠ none) :
    (New order env options w).config = none := by
  cases hf : fetchBaseMetadata order env with
  | mk m err =>
    cases err with
    | some e => rw [New_of_fetch_error order env options w m e hf]
    | none =>
      rw [New_of_fetch_ok order env options w m hf] at h ⊢
      exact applyOptions_error_config options _ w h

/-- A succeeding loader returns a non-nil map whose keys are those of the entries
it iterated and whose values are non-empty after trimming. -/
theorem fetchBaseMetadata_ok_shape (order : List (BaseMetadata × String)) (env : Env)
    (h : (fetchBaseMetadata order env).2 = none) :
    ∃ m, fetchBaseMetadata order env = (some m, none) ∧
      (∀ k, (m k).isSome ↔ k ∈ order.map Prod.fst) ∧
      (∀ k s, m k = some s → TrimSpace s ≠ "") := by
  obtain ⟨m, hm, _, _⟩ := fetchLoop_valid env order emptyMap
    (fetchLoop_ok_valid env order emptyMap h)
  refine ⟨m, hm, ?_, ?_⟩
  · intro k
    rw [fetchLoop_keys env order emptyMap m hm k]
    simp [emptyMap]
  · exact fetchLoop_values env order emptyMap m hm (fun k s hk => by simp [emptyMap] at hk)

/-- The string is empty after trimming exactly when it holds white space only. -/
theorem TrimSpace_eq_empty_iff (s : String) :
    TrimSpace s = "" ↔ ∀ c ∈ s.data, isSpace c = true := by
  have hstr : TrimSpace s = "" ↔
      ((s.data.dropWhile isSpace).reverse.dropWhile isSpace).reverse = [] := by
    unfold TrimSpace
    constructor
    · intro h; exact congrArg String.data h
    · intro h; rw [h]
  rw [hstr, List.reverse_eq_nil_iff, List.dropWhile_eq_nil_iff]
  constructor
  · intro h
    have hnil : s.data.dropWhile isSpace = [] := by
      cases hd : s.data.dropWhile isSpace with
      | nil => rfl
      | cons a l =>
        have h1 : isSpace a = true := h a (by rw [hd]; simp)
        have h2 := List.head_dropWhile_not isSpace s.data (by rw [hd]; simp)
        simp only [hd, List.head_cons] at h2
        rw [h1] at h2; cases h2
    exact List.dropWhile_eq_nil_iff.1 hnil
  · intro h
    rw [List.dropWhile_eq_nil_iff.2 h]
    intro c hc
    cases hc

/-! The loader and construction without options -/

/-- C1: when the five variables are all set to values that are non-empty after
trimming, `New` without options succeeds, whatever the iteration order, and
`GetBaseMetadata` returns for each key of the table the untrimmed environment
value of the variable paired with it. -/
theorem New_valid_env_returns_env_values {κ σ : Type}
    (order : List (BaseMetadata × String)) (hperm : order.Perm baseMetadataVariables)
    (env : Env) (w : σ) (hvalid : ∀ kv ∈ baseMetadataVariables, validVar env kv.2) :
    ∃ cfg : Config κ, New order env [] w = ⟨some cfg, none, w⟩ ∧
      ∀ kv ∈ baseMetadataVariables, ∃ s, env kv.2 = some s ∧
        GetBaseMetadata (some cfg) kv.1 = .ok (s, cfg) := by
  obtain ⟨m1, h1, _, h3⟩ := fetchLoop_valid env order emptyMap
    (fun kv hkv => hvalid kv (hperm.mem_iff.1 hkv))
  refine ⟨⟨some m1, none⟩, ?_, ?_⟩
  · rw [New_of_fetch_ok order env [] w (some m1) h1]; rfl
  · intro kv hkv
    obtain ⟨s, hs, _⟩ := hvalid kv hkv
    refine ⟨s, hs, ?_⟩
    have hval := h3 (order_keys_nodup order hperm) kv (hperm.mem_iff.2 hkv)
    simp [GetBaseMetadata, mapIndex, hval, hs]

/-- The example of C1: with the values node-1, 10.0.0.5, pod-abc, 10.0.0.6 and
default, construction succeeds and the namespace key yields "default". -/
theorem New_valid_env_returns_env_values_witness :
    ∃ cfg : Config Unit,
      New baseMetadataVariables.reverse exampleEnv [] () = ⟨some cfg, none, ()⟩ ∧
      GetBaseMetadata (some cfg) BaseplateK8sNamespace = .ok ("default", cfg) := by
  obtain ⟨cfg, h1, h2⟩ := @New_valid_env_returns_env_values Unit Unit
    baseMetadataVariables.reverse (List.reverse_perm _) exampleEnv () (by decide)
  refine ⟨cfg, h1, ?_⟩
  obtain ⟨s, hs, hget⟩ :=
    h2 (BaseplateK8sNamespace, "BASEPLATE_K8S_METADATA_NAMESPACE") (by decide)
  have : s = "default" := by
    have h0 : exampleEnv "BASEPLATE_K8S_METADATA_NAMESPACE" = some "default" := by decide
    rw [h0] at hs; exact (Option.some.inj hs).symm
  rw [← this]; exact hget

/-- C2: when one of the five variables is unset, `New` returns a non-nil error
and a nil `*Config`, whatever the options and the iteration order. -/
theorem New_unset_variable_fails {κ σ : Type}
    (order : List (BaseMetadata × String)) (hperm : order.Perm baseMetadataVariables)
    (env : Env) (options : List (ConfigOption κ σ)) (w : σ)
    (hunset : ∃ kv ∈ baseMetadataVariables, env kv.2 = none) :
    (New order env options w).err ≠ none ∧ (New order env options w).config = none := by
  obtain ⟨kv, hkv, hnone⟩ := hunset
  obtain ⟨kv1, _, _, hf⟩ := fetchLoop_invalid_fails env order emptyMap
    ⟨kv, hperm.mem_iff.2 hkv, Or.inl hnone⟩
  rw [New_of_fetch_error order env options w none _ hf]
  exact ⟨by simp, rfl⟩

theorem New_unset_variable_fails_witness :
    (New baseMetadataVariables (unsetenv exampleEnv "BASEPLATE_K8S_METADATA_NODE_IP")
        ([] : List (ConfigOption Unit Unit)) ()).err ≠ none ∧
    (New baseMetadataVariables (unsetenv exampleEnv "BASEPLATE_K8S_METADATA_NODE_IP")
        ([] : List (ConfigOption Unit Unit)) ()).config = none :=
  New_unset_variable_fails baseMetadataVariables (List.Perm.refl _)
    (unsetenv exampleEnv "BASEPLATE_K8S_METADATA_NODE_IP") [] ()
    ⟨(BaseplateK8sNodeIP, "BASEPLATE_K8S_METADATA_NODE_IP"), by decide, by decide⟩

/-- C3: a value that is empty after trimming is treated like an absent variable:
for each of the five variables `v`, each such value `w`, each environment, each
iteration order and each sequence of options, `New` with `v` set to `w` returns
what it returns with `v` unset, namely a nil `*Config` and the error naming a
variable, the options not being run. -/
theorem New_blank_same_as_unset {κ σ : Type}
    (order : List (BaseMetadata × String)) (hperm : order.Perm baseMetadataVariables)
    (env : Env) (v w : String) (options : List (ConfigOption κ σ)) (world : σ)
    (hv : v ∈ baseMetadataVariables.map Prod.snd) (hw : TrimSpace w = "") :
    New order (setenv env v w) options world = New order (unsetenv env v) options world ∧
    ∃ e, New order (unsetenv env v) options world = ⟨none, some e, world⟩ := by
  have heq : fetchBaseMetadata order (setenv env v w) = fetchBaseMetadata order (unsetenv env v) :=
    fetchLoop_blank_eq_unset env v w hw order emptyMap
  obtain ⟨kv, hkv, rfl⟩ := List.mem_map.1 hv
  obtain ⟨kv1, _, _, hf⟩ := fetchLoop_invalid_fails (unsetenv env kv.2) order emptyMap
    ⟨kv, hperm.mem_iff.2 hkv, Or.inl (by simp [unsetenv])⟩
  constructor
  · rw [New_of_fetch_error order _ options world none _ (heq.trans hf),
      New_of_fetch_error order _ options world none _ hf]
  · exact ⟨_, New_of_fetch_error order _ options world none _ hf⟩

theorem New_blank_same_as_unset_witness :
    New baseMetadataVariables (setenv exampleEnv "BASEPLATE_K8S_METADATA_POD_NAME" "   ")
        ([] : List (ConfigOption Unit Unit)) ()
      = New baseMetadataVariables (unsetenv exampleEnv "BASEPLATE_K8S_METADATA_POD_NAME")
        ([] : List (ConfigOption Unit Unit)) () ∧
    ∃ e, New baseMetadataVariables (unsetenv exampleEnv "BASEPLATE_K8S_METADATA_POD_NAME")
        ([] : List (ConfigOption Unit Unit)) () = ⟨none, some e, ()⟩ :=
  New_blank_same_as_unset baseMetadataVariables (List.Perm.refl _) exampleEnv
    "BASEPLATE_K8S_METADATA_POD_NAME" "   " [] () (by decide) (by decide)

/-- C4: whenever `fetchBaseMetadata` fails, in any iteration order, its error
message is "metadatapb:" followed by the name of a table variable that is absent
or blank (never a valid one) and by " base k8s metadata value not present"; and
when exactly one variable is invalid, the loader fails with the error naming that
variable in every order. -/
theorem fetchBaseMetadata_error_names_invalid
    (order : List (BaseMetadata × String)) (hperm : order.Perm baseMetadataVariables)
    (env : Env) :
    (∀ e, (fetchBaseMetadata order env).2 = some e →
      ∃ v ∈ baseMetadataVariables.map Prod.snd, invalidVar env v ∧ ¬ validVar env v ∧
        e.msg = "metadatapb:" ++ v ++ " base k8s metadata value not present") ∧
    (∀ v0 ∈ baseMetadataVariables.map Prod.snd, invalidVar env v0 →
      (∀ v ∈ baseMetadataVariables.map Prod.snd, v ≠ v0 → validVar env v) →
      fetchBaseMetadata order env =
        (none, some ⟨"metadatapb:" ++ v0 ++ " base k8s metadata value not present"⟩)) := by
  constructor
  · intro e he
    obtain ⟨kv, hkv, hinv, rfl, _⟩ := fetchLoop_error env order emptyMap e he
    exact ⟨kv.2, List.mem_map_of_mem Prod.snd (hperm.mem_iff.1 hkv), hinv,
      not_valid_of_invalid env _ hinv, rfl⟩
  · intro v0 hv0 hinv hothers
    obtain ⟨kv0, hkv0, rfl⟩ := List.mem_map.1 hv0
    obtain ⟨kv, hkv, hkinv, hf⟩ := fetchLoop_invalid_fails env order emptyMap
      ⟨kv0, hperm.mem_iff.2 hkv0, hinv⟩
    have hsame : kv.2 = kv0.2 := by
      by_contra hne
      exact not_valid_of_invalid env _ hkinv
        (hothers kv.2 (List.mem_map_of_mem Prod.snd (hperm.mem_iff.1 hkv)) hne)
    rw [← hsame]
    exact hf

/-- The example of C4: with `BASEPLATE_K8S_METADATA_POD_IP` unset and the other
four set, the error names `BASEPLATE_K8S_METADATA_POD_IP`. -/
theorem fetchBaseMetadata_error_names_invalid_witness :
    fetchBaseMetadata baseMetadataVariables.reverse
        (unsetenv exampleEnv "BASEPLATE_K8S_METADATA_POD_IP") =
      (none, some ⟨"metadatapb:BASEPLATE_K8S_METADATA_POD_IP base k8s metadata value not present"⟩) :=
  (fetchBaseMetadata_error_names_invalid baseMetadataVariables.reverse (List.reverse_perm _)
    (unsetenv exampleEnv "BASEPLATE_K8S_METADATA_POD_IP")).2
    "BASEPLATE_K8S_METADATA_POD_IP" (by decide) (by decide) (by decide)

/-- C6: when `fetchBaseMetadata` fails with the error `e`, `New` returns a nil
`*Config` and that same `e` for every sequence of options, and the outside world
is the one it was called in: no option has run. -/
theorem New_propagates_fetch_error {κ σ : Type}
    (order : List (BaseMetadata × String)) (env : Env)
    (options : List (ConfigOption κ σ)) (w : σ) (e : GoError)
    (h : (fetchBaseMetadata order env).2 = some e) :
    New order env options w = ⟨none, some e, w⟩ := by
  unfold New
  cases hf : fetchBaseMetadata order env with
  | mk m err =>
    rw [hf] at h
    cases h
    rfl

theorem New_propagates_fetch_error_witness :
    New baseMetadataVariables emptyEnv
        [fun (c : Config Unit) (n : Nat) => (⟨none, c, n + 1⟩ : OptionResult Unit Nat)] 0
      = ⟨none, some (notPresentError "BASEPLATE_K8S_METADATA_NODE_NAME"), 0⟩ :=
  New_propagates_fetch_error baseMetadataVariables emptyEnv _ 0 _ (by decide)

/-! Options -/

/-- C5: when the base metadata loads, `New` runs the options from left to right
on one configuration that starts with the loaded mapping, each option receiving
the configuration and world the previous one left.  If each returns nil, `New`
returns the configuration left by the last one and a nil error.  If the option
after a succeeding run `pre` returns the error `e`, `New` returns a nil `*Config`
and `e`, and the world is the one that option left, whatever options `later`
follow it: none of them runs. -/
theorem New_applies_options_in_order {κ σ : Type}
    (order : List (BaseMetadata × String)) (env : Env) (w : σ)
    (hfetch : (fetchBaseMetadata order env).2 = none) :
    (∀ options : List (ConfigOption κ σ),
      (∀ (j : Nat) (p : ConfigOption κ σ), options[j]? = some p →
        (p (stateAfter options j ⟨(fetchBaseMetadata order env).1, none⟩ w).1
           (stateAfter options j ⟨(fetchBaseMetadata order env).1, none⟩ w).2).err = none) →
      New order env options w =
        ⟨some (stateAfter options options.length ⟨(fetchBaseMetadata order env).1, none⟩ w).1,
          none,
          (stateAfter options options.length ⟨(fetchBaseMetadata order env).1, none⟩ w).2⟩) ∧
    (∀ (pre : List (ConfigOption κ σ)) (o : ConfigOption κ σ)
        (later : List (ConfigOption κ σ)) (e : GoError),
      (∀ (j : Nat) (p : ConfigOption κ σ), pre[j]? = some p →
        (p (stateAfter pre j ⟨(fetchBaseMetadata order env).1, none⟩ w).1
           (stateAfter pre j ⟨(fetchBaseMetadata order env).1, none⟩ w).2).err = none) →
      (o (stateAfter pre pre.length ⟨(fetchBaseMetadata order env).1, none⟩ w).1
         (stateAfter pre pre.length ⟨(fetchBaseMetadata order env).1, none⟩ w).2).err = some e →
      New order env (pre ++ o :: later) w =
        ⟨none, some e,
          (o (stateAfter pre pre.length ⟨(fetchBaseMetadata order env).1, none⟩ w).1
             (stateAfter pre pre.length ⟨(fetchBaseMetadata order env).1, none⟩ w).2).world⟩) := by
  have hf : fetchBaseMetadata order env = ((fetchBaseMetadata order env).1, none) := by
    rw [← hfetch]
  constructor
  · intro options hall
    rw [New_of_fetch_ok order env options w _ hf]
    have := applyOptions_append_ok options [] _ w hall
    rw [List.append_nil] at this
    rw [this]
    rfl
  · intro pre o later e hall herr
    rw [New_of_fetch_ok order env _ w _ hf, applyOptions_append_ok pre (o :: later) _ w hall,
      applyOptions_cons_error o later _ _ e herr]

/-- The example of C5: step 2 of 3 fails; step 3 never runs and the error of
step 2 is returned. -/
theorem New_applies_options_in_order_witness :
    New baseMetadataVariables exampleEnv
        [logOption 1, failingOption 2 "step 2 failed", logOption 3] []
      = ⟨none, some ⟨"step 2 failed"⟩, [1, 2]⟩ :=
  (New_applies_options_in_order baseMetadataVariables exampleEnv [] (by decide)).2
    [logOption 1] (failingOption 2 "step 2 failed") [logOption 3] ⟨"step 2 failed"⟩
    (by
      intro j p hp
      cases j with
      | zero => simp at hp; subst hp; rfl
      | succ n => simp at hp)
    rfl

/-! Lookup -/

/-- C7: for every `Config` value, the zero value included, and every key, also
outside the fixed five, `GetBaseMetadata` returns without a panic: the stored
string when the key is in the map, "" when the map is nil or the key absent; and
it leaves the `Config` as it was. -/
theorem GetBaseMetadata_never_fails {κ : Type} (c : Config κ) (key : BaseMetadata) :
    ∃ s, GetBaseMetadata (some c) key = .ok (s, c) ∧
      (∀ m v, c.BaseK8sMetadata = some m → m key = some v → s = v) ∧
      (c.BaseK8sMetadata = none → s = "") ∧
      (∀ m, c.BaseK8sMetadata = some m → m key = none → s = "") ∧
      GetBaseMetadata (some (zeroConfig κ)) key = .ok ("", zeroConfig κ) := by
  refine ⟨mapIndex c.BaseK8sMetadata key, rfl, ?_, ?_, ?_, rfl⟩
  · intro m v hm hv
    simp [mapIndex, hm, hv]
  · intro hm
    simp [mapIndex, hm]
  · intro m hm hv
    simp [mapIndex, hm, hv]

/-- C8 as stated fails: with no variable set, `New` fails and returns a nil
`*Config`, and `GetBaseMetadata` on that pointer panics instead of yielding "". -/
theorem GetBaseMetadata_on_failed_New_panics :
    (New baseMetadataVariables emptyEnv ([] : List (ConfigOption Unit Unit)) ()).err ≠ none ∧
    GetBaseMetadata
        (New baseMetadataVariables emptyEnv ([] : List (ConfigOption Unit Unit)) ()).config
        BaseplateK8sNodeName
      = .error .nilPointerDereference ∧
    ¬ ∃ cfg, GetBaseMetadata
        (New baseMetadataVariables emptyEnv ([] : List (ConfigOption Unit Unit)) ()).config
        BaseplateK8sNodeName
      = .ok ("", cfg) := by
  have h : New baseMetadataVariables emptyEnv ([] : List (ConfigOption Unit Unit)) ()
      = ⟨none, some (notPresentError "BASEPLATE_K8S_METADATA_NODE_NAME"), ()⟩ :=
    New_of_fetch_error _ _ _ _ none _ rfl
  rw [h]
  refine ⟨by simp, rfl, ?_⟩
  rintro ⟨cfg, hcfg⟩
  cases hcfg

/-- C8, amended: whenever `New` fails, the `*Config` it returns is nil and
`GetBaseMetadata` on it panics with a nil pointer dereference for every key;
the lookup yields "" for every key on the zero value `Config`, which it leaves
as it was. -/
theorem GetBaseMetadata_after_failed_New {κ σ : Type}
    (order : List (BaseMetadata × String)) (env : Env)
    (options : List (ConfigOption κ σ)) (w : σ)
    (hfail : (New order env options w).err ≠ none) :
    (New order env options w).config = none ∧
    (∀ key, GetBaseMetadata (New order env options w).config key
      = .error .nilPointerDereference) ∧
    (∀ key, GetBaseMetadata (some (zeroConfig κ)) key = .ok ("", zeroConfig κ)) := by
  have hnil := New_error_config order env options w hfail
  refine ⟨hnil, ?_, fun _ => rfl⟩
  intro key
  rw [hnil]
  rfl

theorem GetBaseMetadata_after_failed_New_witness :
    (New baseMetadataVariables exampleEnv
        [logOption 1, failingOption 2 "step 2 failed"] []).config = none ∧
    (∀ key, GetBaseMetadata (New baseMetadataVariables exampleEnv
        [logOption 1, failingOption 2 "step 2 failed"] []).config key
      = .error .nilPointerDereference) ∧
    (∀ key, GetBaseMetadata (some (zeroConfig Unit)) key = .ok ("", zeroConfig Unit)) :=
  GetBaseMetadata_after_failed_New baseMetadataVariables exampleEnv
    [logOption 1, failingOption 2 "step 2 failed"] [] (by decide)

/-! Completeness of the mapping -/

/-- C9: whenever `fetchBaseMetadata` succeeds, the map it returns has exactly the
five fixed keys and every value is non-empty after trimming; and whenever `New`
succeeds with options that leave `BaseK8sMetadata` as they find it, the returned
`Config` holds that same complete map. -/
theorem fetchBaseMetadata_mapping_complete {κ σ : Type}
    (order : List (BaseMetadata × String)) (hperm : order.Perm baseMetadataVariables)
    (env : Env) :
    ((fetchBaseMetadata order env).2 = none →
      ∃ m, fetchBaseMetadata order env = (some m, none) ∧
        (∀ k, (m k).isSome ↔ k ∈ [BaseplateK8sNodeName, BaseplateK8sNodeIP,
          BaseplateK8sPodName, BaseplateK8sPodIP, BaseplateK8sNamespace]) ∧
        (∀ k s, m k = some s → TrimSpace s ≠ "")) ∧
    (∀ (options : List (ConfigOption κ σ)) (w : σ),
      (∀ o ∈ options, ∀ (c1 : Config κ) (w1 : σ),
        (o c1 w1).config.BaseK8sMetadata = c1.BaseK8sMetadata) →
      (New order env options w).err = none →
      ∃ cfg m, (New order env options w).config = some cfg ∧
        cfg.BaseK8sMetadata = some m ∧
        fetchBaseMetadata order env = (some m, none) ∧
        (∀ k, (m k).isSome ↔ k ∈ [BaseplateK8sNodeName, BaseplateK8sNodeIP,
          BaseplateK8sPodName, BaseplateK8sPodIP, BaseplateK8sNamespace]) ∧
        (∀ k s, m k = some s → TrimSpace s ≠ "")) := by
  have hshape : (fetchBaseMetadata order env).2 = none →
      ∃ m, fetchBaseMetadata order env = (some m, none) ∧
        (∀ k, (m k).isSome ↔ k ∈ [BaseplateK8sNodeName, BaseplateK8sNodeIP,
          BaseplateK8sPodName, BaseplateK8sPodIP, BaseplateK8sNamespace]) ∧
        (∀ k s, m k = some s → TrimSpace s ≠ "") := by
    intro h
    obtain ⟨m, hm, hkeys, hvals⟩ := fetchBaseMetadata_ok_shape order env h
    refine ⟨m, hm, ?_, hvals⟩
    intro k
    rw [hkeys k, (hperm.map Prod.fst).mem_iff]
    rfl
  refine ⟨hshape, ?_⟩
  intro options w hkeep hok
  cases hf : (fetchBaseMetadata order env).2 with
  | some e =>
    rw [New_of_fetch_error order env options w (fetchBaseMetadata order env).1 e
      (by rw [← hf])] at hok
    cases hok
  | none =>
    obtain ⟨m, hm, hkeys, hvals⟩ := hshape hf
    rw [New_of_fetch_ok order env options w (some m) hm] at hok ⊢
    obtain ⟨cfg, hcfg, hmap⟩ := applyOptions_keeps_mapping options _ w hkeep hok
    exact ⟨cfg, m, hcfg, hmap, hm, hkeys, hvals⟩

theorem fetchBaseMetadata_mapping_complete_witness :
    ∃ cfg m, (New baseMetadataVariables.reverse exampleEnv [logOption 1] []).config = some cfg ∧
      cfg.BaseK8sMetadata = some m ∧
      fetchBaseMetadata baseMetadataVariables.reverse exampleEnv = (some m, none) ∧
      (∀ k, (m k).isSome ↔ k ∈ [BaseplateK8sNodeName, BaseplateK8sNodeIP,
        BaseplateK8sPodName, BaseplateK8sPodIP, BaseplateK8sNamespace]) ∧
      (∀ k s, m k = some s → TrimSpace s ≠ "") :=
  (fetchBaseMetadata_mapping_complete baseMetadataVariables.reverse (List.reverse_perm _)
    exampleEnv).2 [logOption 1] []
    (by
      intro o ho c1 w1
      simp only [List.mem_singleton] at ho
      subst ho
      rfl)
    (by decide)

/-! The client option -/

/-- C10: for a constructor `NewK8SClient` returning a client and an error, the
option of `WithK8SClient` stores the client in `k8sClient`, leaves
`BaseK8sMetadata` as it was and returns the constructor's error as it is (none
when there is none).  On an environment with the five variables valid,
`New(WithK8SClient())` fails with exactly that error when the constructor fails,
and otherwise returns a `Config` holding the client and the loaded mapping. -/
theorem WithK8SClient_propagates_client_error {κ σ : Type}
    (newK8SClient : σ → Option κ × Option GoError × σ)
    (order : List (BaseMetadata × String)) (hperm : order.Perm baseMetadataVariables)
    (env : Env) (hvalid : ∀ kv ∈ baseMetadataVariables, validVar env kv.2)
    (c : Config κ) (w : σ) :
    (WithK8SClient newK8SClient c w).config.k8sClient = (newK8SClient w).1 ∧
    (WithK8SClient newK8SClient c w).config.BaseK8sMetadata = c.BaseK8sMetadata ∧
    (WithK8SClient newK8SClient c w).err = (newK8SClient w).2.1 ∧
    (WithK8SClient newK8SClient c w).world = (newK8SClient w).2.2 ∧
    (∀ e, (newK8SClient w).2.1 = some e →
      New order env [WithK8SClient newK8SClient] w = ⟨none, some e, (newK8SClient w).2.2⟩) ∧
    ((newK8SClient w).2.1 = none →
      ∃ m, fetchBaseMetadata order env = (some m, none) ∧
        (∀ kv ∈ baseMetadataVariables, m kv.1 = env kv.2) ∧
        New order env [WithK8SClient newK8SClient] w =
          ⟨some ⟨some m, (newK8SClient w).1⟩, none, (newK8SClient w).2.2⟩) := by
  obtain ⟨m, hm, _, hvals⟩ := fetchLoop_valid env order emptyMap
    (fun kv hkv => hvalid kv (hperm.mem_iff.1 hkv))
  have hnew := New_of_fetch_ok order env [WithK8SClient newK8SClient] w (some m) hm
  refine ⟨rfl, rfl, rfl, rfl, ?_, ?_⟩
  · intro e he
    rw [hnew, applyOptions_cons_error _ _ _ _ e he]
    rfl
  · intro hnone
    refine ⟨m, hm, ?_, ?_⟩
    · intro kv hkv
      exact hvals (order_keys_nodup order hperm) kv (hperm.mem_iff.2 hkv)
    · rw [hnew, applyOptions_cons_ok _ _ _ _ hnone]
      rfl

theorem WithK8SClient_propagates_client_error_witness :
    New baseMetadataVariables exampleEnv
        [WithK8SClient (failingNewK8SClient "cluster config not found")] ()
      = ⟨none, some ⟨"cluster config not found"⟩, ()⟩ :=
  (WithK8SClient_propagates_client_error (failingNewK8SClient "cluster config not found")
    baseMetadataVariables (List.Perm.refl _) exampleEnv (by decide) (zeroConfig Unit) ()).2.2.2.2.1
    ⟨"cluster config not found"⟩ rfl

end Metadatabp
